import Mathlib

/-!
Shallow embedding of the spreadsheet-formula evaluator (`formula.js`) of the
repository `cut-list-home-square`.

Modelling conventions:
* In the formula evaluator, JavaScript numbers are modelled as exact
  rationals extended with the three non-finite IEEE values (`NaN`,
  `Infinity`, `-Infinity`); IEEE-754 rounding is not modelled there, and
  every claim on the evaluator only involves values on which the exact and
  the rounded semantics agree.  The sign of zero is not modelled.
* In the reference codec (`colToNum`/`numToCol`), whose round-trip claim
  quantifies over all positive integers, the source's double arithmetic IS
  modelled: every addition, subtraction and multiplication result is rounded
  to 53 significant bits with ties to even (`rnd`), `Math.floor((n-1)/26)`
  is the floor of the correctly rounded double quotient (`jsFloorDiv26`),
  and the `%` remainder (`fmod`) is exact on its operand values.
* JavaScript's `Number(string)` conversion is modelled for the decimal
  numeral forms (sign, digits, one decimal point, exponent) and the
  `Infinity` literals; the hexadecimal/octal/binary forms are not modelled
  (no formula in the claims uses them).
* JavaScript's number-to-string conversion is modelled for finite values
  whose decimal expansion terminates, printed without exponent notation;
  this agrees with JavaScript on every value produced in this development.
* A thrown JavaScript exception is modelled as `Option.none`.
* JavaScript objects used as string-keyed maps (`sheetModel.cells`, the
  overrides object built by `Object.fromEntries`) are modelled as association
  lists looked up from the right (later entries win, as in `fromEntries`).
* `Map` (the evaluation cache) is modelled as an association list extended at
  the front and looked up from the left (the most recent `set` wins).
-/

namespace Sheet

/-- An exact rational as a numerator/denominator pair, kept in lowest terms
with a positive denominator by every constructing operation.  (A
self-contained representation is used rather than Mathlib's `ℚ` so that all
arithmetic reduces inside the kernel.) -/
structure JsRat where
  num : ℤ
  den : ℕ
deriving DecidableEq, Repr

/-- Reduce a pair to lowest terms (denominators are always positive here). -/
def JsRat.norm (a : JsRat) : JsRat :=
  let g := a.num.natAbs.gcd a.den
  if g = 0 then ⟨0, 1⟩ else ⟨a.num / (g : ℤ), a.den / g⟩

/-- Embed an integer. -/
def JsRat.ofInt (n : ℤ) : JsRat := ⟨n, 1⟩

instance (n : ℕ) : OfNat JsRat n := ⟨⟨n, 1⟩⟩

/-- Rational addition. -/
def JsRat.add (a b : JsRat) : JsRat :=
  JsRat.norm ⟨a.num * b.den + b.num * a.den, a.den * b.den⟩

/-- Rational negation. -/
def JsRat.neg (a : JsRat) : JsRat := ⟨-a.num, a.den⟩

/-- Rational multiplication. -/
def JsRat.mul (a b : JsRat) : JsRat :=
  JsRat.norm ⟨a.num * b.num, a.den * b.den⟩

/-- Rational inverse (of a nonzero argument). -/
def JsRat.inv (a : JsRat) : JsRat :=
  if 0 < a.num then ⟨a.den, a.num.toNat⟩
  else if a.num < 0 then ⟨-(a.den : ℤ), (-a.num).toNat⟩
  else ⟨0, 1⟩

/-- Rational division (of a nonzero divisor). -/
def JsRat.div (a b : JsRat) : JsRat := a.mul b.inv

/-- Strict order (denominators are positive). -/
def JsRat.blt (a b : JsRat) : Bool := a.num * b.den < b.num * a.den

/-- Nonstrict order (denominators are positive). -/
def JsRat.ble (a b : JsRat) : Bool := a.num * b.den ≤ b.num * a.den

/-- The rational `10 ^ k`. -/
def JsRat.pow10 (k : ℕ) : JsRat := ⟨(10 : ℤ) ^ k, 1⟩

/-- Multiply by `10 ^ e` for a signed exponent. -/
def JsRat.mulPow10 (a : JsRat) (e : ℤ) : JsRat :=
  if 0 ≤ e then a.mul (JsRat.pow10 e.toNat) else a.div (JsRat.pow10 (-e).toNat)

/-- A JavaScript number: an exact rational or one of the non-finite values. -/
inductive JsNum where
  | fin (q : JsRat)
  | nan
  | inf
  | ninf
deriving DecidableEq, Repr

/-- IEEE addition on the modelled numbers. -/
def jadd : JsNum → JsNum → JsNum
  | .fin a, .fin b => .fin (a.add b)
  | .nan, _ => .nan
  | _, .nan => .nan
  | .inf, .ninf => .nan
  | .ninf, .inf => .nan
  | .inf, _ => .inf
  | _, .inf => .inf
  | .ninf, _ => .ninf
  | _, .ninf => .ninf

/-- IEEE negation. -/
def jneg : JsNum → JsNum
  | .fin a => .fin a.neg
  | .nan => .nan
  | .inf => .ninf
  | .ninf => .inf

/-- IEEE subtraction. -/
def jsub (a b : JsNum) : JsNum := jadd a (jneg b)

/-- IEEE multiplication (sign of zero not modelled). -/
def jmul : JsNum → JsNum → JsNum
  | .fin a, .fin b => .fin (a.mul b)
  | .nan, _ => .nan
  | _, .nan => .nan
  | .inf, .inf => .inf
  | .inf, .ninf => .ninf
  | .ninf, .inf => .ninf
  | .ninf, .ninf => .inf
  | .inf, .fin q => if q.num = 0 then .nan else if 0 < q.num then .inf else .ninf
  | .fin q, .inf => if q.num = 0 then .nan else if 0 < q.num then .inf else .ninf
  | .ninf, .fin q => if q.num = 0 then .nan else if 0 < q.num then .ninf else .inf
  | .fin q, .ninf => if q.num = 0 then .nan else if 0 < q.num then .ninf else .inf

/-- IEEE division (sign of zero not modelled: a finite value divided by zero
yields the infinity signed by the numerator, `0/0` yields `NaN`). -/
def jdiv : JsNum → JsNum → JsNum
  | .fin a, .fin b =>
      if b.num = 0 then (if a.num = 0 then .nan else if 0 < a.num then .inf else .ninf)
      else .fin (a.div b)
  | .nan, _ => .nan
  | _, .nan => .nan
  | .inf, .inf => .nan
  | .inf, .ninf => .nan
  | .ninf, .inf => .nan
  | .ninf, .ninf => .nan
  | .inf, .fin q => if 0 ≤ q.num then .inf else .ninf
  | .ninf, .fin q => if 0 ≤ q.num then .ninf else .inf
  | .fin _, .inf => .fin 0
  | .fin _, .ninf => .fin 0

/-- IEEE strict less-than (`NaN` compares false against everything). -/
def jlt : JsNum → JsNum → Bool
  | .fin a, .fin b => a.blt b
  | .nan, _ => false
  | _, .nan => false
  | .ninf, .ninf => false
  | .ninf, _ => true
  | _, .inf => true
  | .inf, _ => false
  | _, .ninf => false

/-- IEEE less-or-equal (`NaN` compares false against everything). -/
def jle : JsNum → JsNum → Bool
  | .fin a, .fin b => a.ble b
  | .nan, _ => false
  | _, .nan => false
  | .ninf, _ => true
  | _, .inf => true
  | .inf, _ => false
  | .fin _, .ninf => false

/-- A JavaScript value as it flows through the evaluator: number, string,
boolean, `null`/`undefined` (conflated), or an array (produced by range
expressions). -/
inductive Value where
  | num (n : JsNum)
  | str (s : String)
  | bool (b : Bool)
  | null
  | arr (vs : List Value)

/-- Numeric value of a digit list, most significant first. -/
def digitsVal (ds : List Char) : ℕ := ds.foldl (fun n c => n * 10 + (c.toNat - 48)) 0

/-- JavaScript `String.prototype.trim` (and the trimming done by `Number`):
drop leading and trailing whitespace.  (`Char.isWhitespace` covers the ASCII
whitespace actually occurring in formulas.) -/
def jsTrim (s : String) : String :=
  String.mk (((s.data.dropWhile Char.isWhitespace).reverse.dropWhile Char.isWhitespace).reverse)

/-- JavaScript `String.prototype.toUpperCase` (on the ASCII identifiers the
parser sees). -/
def strUpper (s : String) : String := String.mk (s.data.map Char.toUpper)

/-- Decimal-numeral part of JavaScript `Number(string)` (after sign and
`Infinity` handling): digits, optional fractional part, optional exponent.
Returns `none` when the text is not such a numeral (JavaScript `NaN`). -/
def parseDec (cs : List Char) : Option JsRat :=
  let ip := cs.takeWhile Char.isDigit
  let r1 := cs.dropWhile Char.isDigit
  let fr : Option (List Char × List Char) :=
    match r1 with
    | '.' :: rest => some (rest.takeWhile Char.isDigit, rest.dropWhile Char.isDigit)
    | _ => none
  let fp := (fr.map Prod.fst).getD []
  let r2 := (fr.map Prod.snd).getD r1
  if ip = [] ∧ fp = [] then none
  else
    let mant : JsRat :=
      (JsRat.ofInt (digitsVal ip)).add ((JsRat.ofInt (digitsVal fp)).div (JsRat.pow10 fp.length))
    match r2 with
    | [] => some mant
    | e :: rest =>
      if e = 'e' ∨ e = 'E' then
        let se : ℤ × List Char :=
          match rest with
          | '+' :: r => (1, r)
          | '-' :: r => (-1, r)
          | r => (1, r)
        if se.2 ≠ [] ∧ se.2.all Char.isDigit then
          some (mant.mulPow10 (se.1 * (digitsVal se.2 : ℤ)))
        else none
      else none

/-- JavaScript `Number(string)`: trim, empty string is `0`, optional sign,
`Infinity` or a decimal numeral; anything else is `NaN`.  (Hexadecimal and
similar prefixed forms are not modelled.) -/
def jsParseNum (s : String) : JsNum :=
  let t := jsTrim s
  if t = "" then .fin 0
  else
    let core : List Char × Bool :=
      match t.data with
      | '+' :: r => (r, false)
      | '-' :: r => (r, true)
      | r => (r, false)
    let mag : JsNum :=
      if core.1 = "Infinity".data then .inf
      else match parseDec core.1 with
        | some q => .fin q
        | none => .nan
    if core.2 then jneg mag else mag

/-- Decimal digit string of a nonnegative rational whose decimal expansion
terminates; other rationals (unreachable from the evaluator's literals and
the operations exercised here) fall back to the raw rational notation. -/
def ratDecStr (p : JsRat) : String :=
  match (List.range 64).find? (fun k => (p.mul (JsRat.pow10 k)).den = 1) with
  | some k =>
      let m := (p.mul (JsRat.pow10 k)).num.toNat
      if k = 0 then Nat.repr m
      else
        let ipart := m / 10 ^ k
        let fpart := m % 10 ^ k
        let fs := Nat.repr fpart
        let fs := String.mk (List.replicate (k - fs.length) '0') ++ fs
        Nat.repr ipart ++ "." ++ fs
  | none => Int.repr p.num ++ "/" ++ Nat.repr p.den

/-- JavaScript `String(number)` (exponent notation for very large or very
small magnitudes is not modelled; no value in this development reaches it). -/
def jsNumToString : JsNum → String
  | .nan => "NaN"
  | .inf => "Infinity"
  | .ninf => "-Infinity"
  | .fin q => if q.num < 0 then "-" ++ ratDecStr q.neg else ratDecStr q

/-- Function `isNumberLike` from `formula.js`: finite number, or nonblank text that
`Number` parses without `NaN`. -/
def isNumberLike : Value → Bool
  | .null => false
  | .num n => (match n with | .fin _ => true | _ => false)
  | .str s => jsTrim s ≠ "" && jsParseNum s ≠ .nan
  | .bool _ => false
  | .arr _ => false

/-- Function `toNumber` from `formula.js`: null/blank text is `0`, numbers pass
through, text parses with `NaN` collapsed to `0`, everything else is `0`. -/
def toNumber : Value → JsNum
  | .null => .fin 0
  | .num n => n
  | .str s =>
      if s = "" then .fin 0
      else
        let t := jsTrim s
        if t = "" then .fin 0
        else match jsParseNum t with
          | .nan => .fin 0
          | n => n
  | .bool _ => .fin 0
  | .arr _ => .fin 0

mutual

/-- Function `toText` from `formula.js`: null/undefined become the empty string; other
values use JavaScript `String(v)` (booleans print lowercase, arrays join
their elements with commas, null elements printing empty). -/
def toText : Value → String
  | .null => ""
  | .num n => jsNumToString n
  | .str s => s
  | .bool b => if b then "true" else "false"
  | .arr vs => String.intercalate "," (arrTexts vs)
termination_by structural v => v

/-- Element strings of JavaScript `Array.prototype.join`. -/
def arrTexts : List Value → List String
  | [] => []
  | .null :: rest => "" :: arrTexts rest
  | v :: rest => toText v :: arrTexts rest
termination_by structural l => l

end

/-- Function `truthyExcel` from `formula.js`. -/
def truthyExcel : Value → Bool
  | .null => false
  | .bool b => b
  | .num n => (match n with | .fin q => q ≠ 0 | _ => true)
  | .str s => s ≠ ""
  | .arr _ => true

mutual

/-- Collapse every whitespace run to a single space, as the regular
expression replacement in `trimExcel` does. -/
def collapseWs : List Char → List Char
  | [] => []
  | c :: rest =>
      if c.isWhitespace then ' ' :: collapseWsSkip rest
      else c :: collapseWs rest

/-- Skip the remainder of a whitespace run already replaced by one space. -/
def collapseWsSkip : List Char → List Char
  | [] => []
  | c :: rest =>
      if c.isWhitespace then collapseWsSkip rest
      else c :: collapseWs rest

end

/-- Function `trimExcel` from `formula.js`: stringify, trim, collapse internal runs of
whitespace. -/
def trimExcel (v : Value) : String :=
  String.mk (collapseWs (jsTrim (toText v)).data)

/-- Fuelled bit length: `bits fuel n` is the number of binary digits of `n`
whenever `n < 2 ^ fuel`. -/
def bits : ℕ → ℕ → ℕ
  | 0, _ => 0
  | fuel + 1, n => if n = 0 then 0 else bits fuel (n / 2) + 1

/-- Bit length of a nonnegative integer double value (every integer value of
an IEEE double is below `2 ^ 1100`, so fuel 1100 always suffices here). -/
def bitLen (n : ℕ) : ℕ := bits 1100 n

/-- Round `x / y` to the nearest integer, ties to even (`y > 0`). -/
def rndNearestEven (x y : ℕ) : ℕ :=
  let q := x / y
  let r := x % y
  if 2 * r < y then q
  else if 2 * r > y then q + 1
  else if q % 2 = 0 then q else q + 1

/-- Round a nonnegative integer to the nearest IEEE-754 double (53
significant bits, ties to even).  The reference-codec arithmetic of
`formula.js` runs on doubles, so every addition, subtraction and
multiplication result passes through this rounding; values at or below
`2 ^ 53` are exact.  (Values at and beyond `2 ^ 1100` — where the source's
doubles overflow to Infinity — are outside this model; no claim reaches
them.) -/
def rnd (x : ℕ) : ℕ :=
  let b := bitLen x
  if b ≤ 53 then x
  else
    let ulp := 2 ^ (b - 53)
    (rndNearestEven x ulp) * ulp

/-- JavaScript `Math.floor(a / 26)` on a nonnegative integer double `a`: the
floor of the correctly rounded double quotient.  The quotient lies in the
binade of its integer part, whose width fixes the rounding grid; a quotient
below one rounds below one (since `1/26 > 2 ^ (-54)`), so it floors to 0. -/
def jsFloorDiv26 (a : ℕ) : ℕ :=
  if a < 26 then 0
  else
    let q := a / 26
    let b := bitLen q
    if b ≤ 53 then
      let k := 53 - b
      rndNearestEven (a * 2 ^ k) 26 / 2 ^ k
    else
      let ulp := 2 ^ (b - 53)
      rndNearestEven a (26 * ulp) * ulp

/-- Function `colToNum` from `formula.js`: fold the letters left to right with
`n * 26 + (code - 64)`; the product and the sum are double operations and
round (`charCodeAt` and the small constant are exact). -/
def colToNum (col : String) : ℕ :=
  col.data.foldl (fun n ch => rnd (rnd (n * 26) + (ch.toNat - 64))) 0

/-- The `while (n > 0)` loop of `numToCol`, fuelled (each iteration strictly
decreases `n`, so fuel `n` always suffices).  The decrement `n - 1` is a
double subtraction and rounds; the remainder `% 26` is JavaScript `%`
(`fmod`), which is exact on its operand values; the quotient is
`Math.floor((n - 1) / 26)` on doubles. -/
def numToColGo : ℕ → ℕ → String
  | 0, _ => ""
  | _ + 1, 0 => ""
  | fuel + 1, n + 1 =>
      let m := rnd n
      numToColGo fuel (jsFloorDiv26 m) ++ String.singleton (Char.ofNat (65 + m % 26))

/-- Function `numToCol` from `formula.js`: the no-zero-digit base-26 encoding, built
least-significant letter last. -/
def numToCol (n : ℕ) : String := numToColGo n n

/-- Character-list form of `normalizeRef`: delete every anchor marker, then
uppercase. -/
def normCh (l : List Char) : List Char :=
  (l.filter (fun c => c ≠ '$')).map Char.toUpper

/-- Function `normalizeRef` from `formula.js`: delete every anchor marker, uppercase. -/
def normalizeRef (r : String) : String :=
  String.mk (normCh r.data)

/-- Function `splitRef` from `formula.js`: match `^([A-Z]+)(\d+)$`, returning the
letter block and the row number; `none` models the thrown `Bad cell ref`
error. -/
def splitRef (ref : String) : Option (String × ℕ) :=
  let cs := ref.data
  let letters := cs.takeWhile Char.isUpper
  let rest := cs.dropWhile Char.isUpper
  if letters ≠ [] ∧ rest ≠ [] ∧ rest.all Char.isDigit then
    some (String.mk letters, digitsVal rest)
  else none

/-- Split a character list at every colon, as JavaScript
`String.prototype.split(":")` does. -/
def splitColon : List Char → List (List Char)
  | [] => [[]]
  | c :: rest =>
      if c = ':' then [] :: splitColon rest
      else
        match splitColon rest with
        | [] => [[c]]
        | g :: gs => (c :: g) :: gs

/-- Function `expandRange` from `formula.js`: split on the colon, normalize both
corners, and enumerate the bounding box row-major; `none` models the
exceptions thrown for malformed corners or a missing second corner. -/
def expandRange (rangeRef : String) : Option (List String) :=
  match (splitColon rangeRef.data).map (fun p => normalizeRef (String.mk p)) with
  | a :: b :: _ =>
      match splitRef a, splitRef b with
      | some ra, some rb =>
          let colStart := min (colToNum ra.1) (colToNum rb.1)
          let colEnd := max (colToNum ra.1) (colToNum rb.1)
          let rowStart := min ra.2 rb.2
          let rowEnd := max ra.2 rb.2
          some ((List.range' rowStart (rowEnd + 1 - rowStart)).flatMap fun r =>
            (List.range' colStart (colEnd + 1 - colStart)).map fun c =>
              numToCol c ++ Nat.repr r)
      | _, _ => none
  | _ => none

/-- Kind of a token produced by `tokenize`. -/
inductive TokKind where
  | number
  | string
  | op
  | ident
deriving DecidableEq, Repr

/-- A token: its kind and its source text (for string tokens, the decoded
content). -/
structure Token where
  kind : TokKind
  value : String
deriving DecidableEq, Repr

/-- Scan the body of a string literal starting after the opening quote:
returns the decoded content (doubled quotes collapse to one) and the
remaining characters after the closing quote; an unterminated literal
consumes to the end of the input. -/
def scanStr : List Char → List Char × List Char
  | [] => ([], [])
  | '"' :: '"' :: rest =>
      let p := scanStr rest
      ('"' :: p.1, p.2)
  | '"' :: rest => ([], rest)
  | c :: rest =>
      let p := scanStr rest
      (c :: p.1, p.2)

/-- Is the character one of the single-character operator characters
`+ - * / & ( ) , : < > =`? -/
def isOpChar (c : Char) : Bool :=
  "+-*/&(),:<>=".data.contains c

/-- Can the character start an identifier (`[A-Za-z_$]`)? -/
def isIdentStart (c : Char) : Bool :=
  c.isAlpha || c = '_' || c = '$'

/-- Can the character continue an identifier (`[A-Za-z0-9_$]`)? -/
def isIdentCont (c : Char) : Bool :=
  c.isAlpha || c.isDigit || c = '_' || c = '$'

/-- The two-character-operator lookahead of `tokenize` (the local `two` of
the source): the second character when `c` and the next character form
`<>`, `<=` or `>=`. -/
def twoCharOp (c : Char) (rest : List Char) : Option Char :=
  match rest with
  | d :: _ =>
      if (c = '<' ∧ (d = '>' ∨ d = '=')) ∨ (c = '>' ∧ d = '=') then some d else none
  | [] => none

/-- The number-start test of `tokenize`: a digit, or a point immediately
followed by a digit. -/
def numStart (c : Char) (rest : List Char) : Bool :=
  c.isDigit || (c = '.' && (match rest with | d :: _ => d.isDigit | [] => false))

/-- Is the character a digit or a decimal point (the `[\d.]` body class of
the tokenizer's number branch)? -/
def isDigitDot (c : Char) : Bool := c.isDigit || c = '.'

/-- Main tokenizer loop of `tokenize`, fuelled; `none` models the
`Unexpected char` error. -/
def tokenizeGo : ℕ → List Char → Option (List Token)
  | 0, _ => none
  | _ + 1, [] => some []
  | fuel + 1, c :: rest =>
      if c.isWhitespace then tokenizeGo fuel rest
      else if c = '"' then
        let p := scanStr rest
        (tokenizeGo fuel p.2).map (⟨.string, String.mk p.1⟩ :: ·)
      else
        match twoCharOp c rest with
        | some d => (tokenizeGo fuel (rest.drop 1)).map (⟨.op, String.mk [c, d]⟩ :: ·)
        | none =>
          if isOpChar c then
            (tokenizeGo fuel rest).map (⟨.op, String.singleton c⟩ :: ·)
          else if numStart c rest then
            let body := rest.takeWhile isDigitDot
            (tokenizeGo fuel (rest.dropWhile isDigitDot)).map
              (⟨.number, String.mk (c :: body)⟩ :: ·)
          else if isIdentStart c then
            let body := rest.takeWhile isIdentCont
            (tokenizeGo fuel (rest.dropWhile isIdentCont)).map
              (⟨.ident, String.mk (c :: body)⟩ :: ·)
          else none

/-- Function `tokenize` from `formula.js`: trim the formula and scan it into tokens. -/
def tokenize (formula : String) : Option (List Token) :=
  tokenizeGo ((jsTrim formula).data.length + 1) (jsTrim formula).data

/-- The expression tree produced by `parse`. -/
inductive Ast where
  | num (v : JsNum)
  | str (s : String)
  | cell (ref : String)
  | range (ref : String)
  | name (n : String)
  | unary (uop : String) (e : Ast)
  | bin (bop : String) (l r : Ast)
  | call (fname : String) (args : List Ast)

/-- The cell-reference test of the parser: `^\$?[A-Z]{1,3}\$?\d+$`, applied
to the uppercased identifier. -/
def isCellRe (s : String) : Bool :=
  let cs := s.data
  let cs1 := match cs with
    | '$' :: r => r
    | r => r
  let letters := cs1.takeWhile Char.isUpper
  let cs2 := cs1.dropWhile Char.isUpper
  let cs3 := match cs2 with
    | '$' :: r => r
    | r => r
  decide (1 ≤ letters.length) && decide (letters.length ≤ 3) && !cs3.isEmpty &&
    cs3.all Char.isDigit

/-- Is the token the operator `o`?  (`acceptOp` in the source.) -/
def isOpTok (t : Token) (o : String) : Bool :=
  t.kind = TokKind.op && t.value = o

/-- Is the next token a comparison operator? -/
def isCmpTok (t : Token) : Bool :=
  t.kind = TokKind.op &&
    (t.value = "=" || t.value = "<>" || t.value = "<" || t.value = ">" ||
      t.value = "<=" || t.value = ">=")

mutual

/-- Function `parseExpr` of the recursive-descent parser, fuelled. -/
def parseExpr : ℕ → List Token → Option (Ast × List Token)
  | 0, _ => none
  | fuel + 1, ts => parseCompare fuel ts
termination_by structural fuel ts => fuel

/-- Function `parseCompare`: a `parseConcat` followed by a left-folded chain of
comparison operators. -/
def parseCompare : ℕ → List Token → Option (Ast × List Token)
  | 0, _ => none
  | fuel + 1, ts =>
      match parseConcat fuel ts with
      | none => none
      | some (node, rest) => parseCompareLoop fuel node rest
termination_by structural fuel ts => fuel

/-- The comparison-chain loop inside `parseCompare`. -/
def parseCompareLoop : ℕ → Ast → List Token → Option (Ast × List Token)
  | 0, _, _ => none
  | fuel + 1, node, ts =>
      match ts with
      | t :: rest =>
          if isCmpTok t then
            match parseConcat fuel rest with
            | none => none
            | some (right, rest2) => parseCompareLoop fuel (.bin t.value node right) rest2
          else some (node, ts)
      | [] => some (node, ts)
termination_by structural fuel node ts => fuel

/-- Function `parseConcat`: a left-folded chain of `&`. -/
def parseConcat : ℕ → List Token → Option (Ast × List Token)
  | 0, _ => none
  | fuel + 1, ts =>
      match parseAdd fuel ts with
      | none => none
      | some (node, rest) => parseConcatLoop fuel node rest
termination_by structural fuel ts => fuel

/-- The `&`-chain loop inside `parseConcat`. -/
def parseConcatLoop : ℕ → Ast → List Token → Option (Ast × List Token)
  | 0, _, _ => none
  | fuel + 1, node, ts =>
      match ts with
      | t :: rest =>
          if isOpTok t "&" then
            match parseAdd fuel rest with
            | none => none
            | some (right, rest2) => parseConcatLoop fuel (.bin "&" node right) rest2
          else some (node, ts)
      | [] => some (node, ts)
termination_by structural fuel node ts => fuel

/-- Function `parseAdd`: a left-folded chain of `+`/`-`. -/
def parseAdd : ℕ → List Token → Option (Ast × List Token)
  | 0, _ => none
  | fuel + 1, ts =>
      match parseMul fuel ts with
      | none => none
      | some (node, rest) => parseAddLoop fuel node rest
termination_by structural fuel ts => fuel

/-- The additive-chain loop inside `parseAdd`. -/
def parseAddLoop : ℕ → Ast → List Token → Option (Ast × List Token)
  | 0, _, _ => none
  | fuel + 1, node, ts =>
      match ts with
      | t :: rest =>
          if t.kind = TokKind.op && (t.value = "+" || t.value = "-") then
            match parseMul fuel rest with
            | none => none
            | some (right, rest2) => parseAddLoop fuel (.bin t.value node right) rest2
          else some (node, ts)
      | [] => some (node, ts)
termination_by structural fuel node ts => fuel

/-- Function `parseMul`: a left-folded chain of `*`/`/`. -/
def parseMul : ℕ → List Token → Option (Ast × List Token)
  | 0, _ => none
  | fuel + 1, ts =>
      match parseUnary fuel ts with
      | none => none
      | some (node, rest) => parseMulLoop fuel node rest
termination_by structural fuel ts => fuel

/-- The multiplicative-chain loop inside `parseMul`. -/
def parseMulLoop : ℕ → Ast → List Token → Option (Ast × List Token)
  | 0, _, _ => none
  | fuel + 1, node, ts =>
      match ts with
      | t :: rest =>
          if t.kind = TokKind.op && (t.value = "*" || t.value = "/") then
            match parseUnary fuel rest with
            | none => none
            | some (right, rest2) => parseMulLoop fuel (.bin t.value node right) rest2
          else some (node, ts)
      | [] => some (node, ts)
termination_by structural fuel node ts => fuel

/-- Function `parseUnary`: prefix `+`/`-`, otherwise a primary. -/
def parseUnary : ℕ → List Token → Option (Ast × List Token)
  | 0, _ => none
  | fuel + 1, ts =>
      match ts with
      | t :: rest =>
          if t.kind = TokKind.op && (t.value = "+" || t.value = "-") then
            match parseUnary fuel rest with
            | none => none
            | some (e, rest2) => some (.unary t.value e, rest2)
          else parsePrimary fuel ts
      | [] => parsePrimary fuel ts
termination_by structural fuel ts => fuel

/-- Function `parsePrimary`: literals, parenthesized expressions, function calls,
ranges, cell references and bare names; `none` models every parser error. -/
def parsePrimary : ℕ → List Token → Option (Ast × List Token)
  | 0, _ => none
  | fuel + 1, ts =>
      match ts with
      | [] => none
      | t :: rest =>
          if isOpTok t "(" then
            match parseExpr fuel rest with
            | none => none
            | some (e, rest2) =>
                match rest2 with
                | t2 :: rest3 => if isOpTok t2 ")" then some (e, rest3) else none
                | [] => none
          else if t.kind = TokKind.number then
            some (.num (jsParseNum t.value), rest)
          else if t.kind = TokKind.string then
            some (.str t.value, rest)
          else if t.kind = TokKind.ident then
            let raw := t.value
            let idUp := strUpper raw
            match rest with
            | t2 :: rest2 =>
                if isOpTok t2 "(" then
                  match rest2 with
                  | t3 :: rest3 =>
                      if isOpTok t3 ")" then some (.call idUp [], rest3)
                      else
                        match parseArgs fuel rest2 with
                        | none => none
                        | some (args, rest3) => some (.call idUp args, rest3)
                  | [] => none
                else if isOpTok t2 ":" then
                  match rest2 with
                  | t3 :: rest3 =>
                      if t3.kind = TokKind.ident then
                        some (.range (raw ++ ":" ++ t3.value), rest3)
                      else none
                  | [] => none
                else if isCellRe idUp then some (.cell raw, rest)
                else some (.name idUp, rest)
            | [] =>
                if isCellRe idUp then some (.cell raw, rest)
                else some (.name idUp, rest)
          else none
termination_by structural fuel ts => fuel

/-- The argument loop of a function call: expressions separated by commas and
terminated by a closing parenthesis. -/
def parseArgs : ℕ → List Token → Option (List Ast × List Token)
  | 0, _ => none
  | fuel + 1, ts =>
      match parseExpr fuel ts with
      | none => none
      | some (a, rest) =>
          match rest with
          | t :: rest2 =>
              if isOpTok t ")" then some ([a], rest2)
              else if isOpTok t "," then
                match parseArgs fuel rest2 with
                | none => none
                | some (args, rest3) => some (a :: args, rest3)
              else none
          | [] => none
termination_by structural fuel ts => fuel

end

/-- Function `parse` from `formula.js`: tokenize, parse an expression, and require
that every token was consumed. -/
def parse (formula : String) : Option Ast :=
  match tokenize formula with
  | none => none
  | some toks =>
      match parseExpr (8 * toks.length + 16) toks with
      | none => none
      | some (ast, rest) => if rest = [] then some ast else none

/-- A cell record of the document: raw value `v` and optional formula `f`. -/
structure CellRec where
  v : Value
  f : Option String

/-- The document consumed by the evaluator: its cell table. -/
structure SheetModel where
  cells : List (String × CellRec)

/-- The state carried by a `SheetEvaluator`: the document and the overrides
map (whose keys were normalized by the constructor). -/
structure SheetEvaluator where
  sheetModel : SheetModel
  overrides : List (String × Value)

/-- Lookup in a JavaScript object modelled as an association list: later
entries shadow earlier ones, as in object literals and `Object.fromEntries`. -/
def jget {α : Type} (l : List (String × α)) (k : String) : Option α :=
  (l.reverse.find? (fun p => p.1 == k)).map Prod.snd

/-- The `SheetEvaluator` constructor: normalize every override key. -/
def mkEvaluator (model : SheetModel) (overrides : List (String × Value)) :
    SheetEvaluator :=
  ⟨model, overrides.map (fun p => (normalizeRef p.1, p.2))⟩

/-- The session value cache (`this.cache`), extended at the front; the most
recent entry for a key wins, as for `Map.set`. -/
def Cache := List (String × Value)

/-- Lookup in the session cache. -/
def cacheGet (c : Cache) (k : String) : Option Value :=
  (List.find? (fun p => p.1 == k) c).map Prod.snd

/-- Function `getCellRaw` from `formula.js`: overrides first (by normalized key),
then the document under the normalized and under the given key; a missing
cell yields `null`. -/
def getCellRaw (ev : SheetEvaluator) (ref : String) : Value :=
  let nref := normalizeRef ref
  match jget ev.overrides nref with
  | some v => v
  | none =>
      match jget ev.sheetModel.cells nref with
      | some c => c.v
      | none =>
          match jget ev.sheetModel.cells ref with
          | some c => c.v
          | none => Value.null

/-- Function `getCellFormula` from `formula.js`: the document's formula under the
normalized key, then under the given key; overrides are never consulted. -/
def getCellFormula (ev : SheetEvaluator) (ref : String) : Option String :=
  let nref := normalizeRef ref
  match jget ev.sheetModel.cells nref with
  | some c => c.f
  | none =>
      match jget ev.sheetModel.cells ref with
      | some c => c.f
      | none => none

/-- The formula-less branch of `evalCell`: number-like raw values become
numbers, `null` becomes empty text, anything else passes through. -/
def rawOut (v : Value) : Value :=
  if isNumberLike v then
    match v with
    | .num n => .num n
    | .str s => .num (jsParseNum s)
    | v' => v'
  else
    match v with
    | .null => .str ""
    | v' => v'

/-- The binary-operator switch of `evalAst`: `&` concatenates text, the
arithmetic operators coerce both sides to number, `=`/`<>` compare the text
coercions, and the orderings compare the numeric coercions. -/
def applyBin (bop : String) (l r : Value) : Value :=
  if bop = "&" then .str (toText l ++ toText r)
  else if bop = "+" then .num (jadd (toNumber l) (toNumber r))
  else if bop = "-" then .num (jsub (toNumber l) (toNumber r))
  else if bop = "*" then .num (jmul (toNumber l) (toNumber r))
  else if bop = "/" then .num (jdiv (toNumber l) (toNumber r))
  else if bop = "=" then .bool (toText l == toText r)
  else if bop = "<>" then .bool (!(toText l == toText r))
  else if bop = "<" then .bool (jlt (toNumber l) (toNumber r))
  else if bop = ">" then .bool (jlt (toNumber r) (toNumber l))
  else if bop = "<=" then .bool (jle (toNumber l) (toNumber r))
  else if bop = ">=" then .bool (jle (toNumber r) (toNumber l))
  else .str ""

mutual

/-- Function `evalCell` from `formula.js`, fuelled: session-cache lookup, cycle
short-circuit against the visitation stack, then either the raw-value path
or parse-and-evaluate of the stored formula.  Returns the value and the
updated cache; `none` models a thrown error (or fuel exhaustion).  The
source's per-formula AST cache is pure memoization of `parse` and is not
modelled. -/
def evalCell : ℕ → SheetEvaluator → Cache → String → List String →
    Option (Value × Cache)
  | 0, _, _, _, _ => none
  | fuel + 1, ev, cache, ref, stack =>
      let nref := normalizeRef ref
      match cacheGet cache nref with
      | some v => some (v, cache)
      | none =>
          if stack.contains nref then some (.str "", cache)
          else
            match getCellFormula ev nref with
            | none =>
                let out := rawOut (getCellRaw ev nref)
                some (out, (nref, out) :: cache)
            | some f =>
                if f = "" then
                  let out := rawOut (getCellRaw ev nref)
                  some (out, (nref, out) :: cache)
                else
                  match parse f with
                  | none => none
                  | some ast =>
                      match evalAst fuel ev cache ast (stack ++ [nref]) with
                      | none => none
                      | some (out, c1) => some (out, (nref, out) :: c1)
termination_by structural fuel ev cache ref stack => fuel

/-- Function `evalAst` from `formula.js`, fuelled, threading the session cache in
evaluation order. -/
def evalAst : ℕ → SheetEvaluator → Cache → Ast → List String →
    Option (Value × Cache)
  | 0, _, _, _, _ => none
  | fuel + 1, ev, cache, node, stack =>
      match node with
      | .num v => some (.num v, cache)
      | .str s => some (.str s, cache)
      | .cell ref => evalCell fuel ev cache ref stack
      | .range rref =>
          match expandRange rref with
          | none => none
          | some refs =>
              match evalRefs fuel ev cache refs stack with
              | none => none
              | some (vs, c1) => some (.arr vs, c1)
      | .name _ => some (.str "", cache)
      | .unary uop e =>
          match evalAst fuel ev cache e stack with
          | none => none
          | some (v, c1) =>
              if uop = "+" then some (.num (toNumber v), c1)
              else if uop = "-" then some (.num (jneg (toNumber v)), c1)
              else some (.num (.fin 0), c1)
      | .bin bop l r =>
          match evalAst fuel ev cache l stack with
          | none => none
          | some (lv, c1) =>
              match evalAst fuel ev c1 r stack with
              | none => none
              | some (rv, c2) => some (applyBin bop lv rv, c2)
      | .call fname args =>
          if fname = "IF" then
            match args with
            | [] => none
            | a0 :: rest =>
                match evalAst fuel ev cache a0 stack with
                | none => none
                | some (cv, c1) =>
                    if truthyExcel cv then
                      match rest with
                      | [] => none
                      | a1 :: _ => evalAst fuel ev c1 a1 stack
                    else
                      evalAst fuel ev c1 ((rest.drop 1).headD (.str "")) stack
          else if fname = "SUM" then
            match evalSumArgs fuel ev cache args stack (.fin 0) with
            | none => none
            | some (s, c1) => some (.num s, c1)
          else if fname = "TRIM" then
            match args with
            | [] => none
            | a0 :: _ =>
                match evalAst fuel ev cache a0 stack with
                | none => none
                | some (v, c1) => some (.str (trimExcel v), c1)
          else some (.str "", cache)
termination_by structural fuel ev cache node stack => fuel

/-- The range case of `evalAst`: evaluate each expanded reference in order. -/
def evalRefs : ℕ → SheetEvaluator → Cache → List String → List String →
    Option (List Value × Cache)
  | 0, _, _, _, _ => none
  | _ + 1, _, cache, [], _ => some ([], cache)
  | fuel + 1, ev, cache, r :: rest, stack =>
      match evalCell fuel ev cache r stack with
      | none => none
      | some (v, c1) =>
          match evalRefs fuel ev c1 rest stack with
          | none => none
          | some (vs, c2) => some (v :: vs, c2)
termination_by structural fuel ev cache refs stack => fuel

/-- The accumulation loop of `SUM`: array arguments contribute each element's
numeric coercion, scalar arguments their own. -/
def evalSumArgs : ℕ → SheetEvaluator → Cache → List Ast → List String → JsNum →
    Option (JsNum × Cache)
  | 0, _, _, _, _, _ => none
  | _ + 1, _, cache, [], _, acc => some (acc, cache)
  | fuel + 1, ev, cache, a :: rest, stack, acc =>
      match evalAst fuel ev cache a stack with
      | none => none
      | some (v, c1) =>
          let acc' :=
            match v with
            | .arr xs => xs.foldl (fun s x => jadd s (toNumber x)) acc
            | v' => jadd acc (toNumber v')
          evalSumArgs fuel ev c1 rest stack acc'
termination_by structural fuel ev cache args stack acc => fuel

end

/-- Evaluate a formula string against an evaluator with a fresh cache and an
empty visitation stack, keeping only the value (auxiliary to the theorems). -/
def evalFormula (ev : SheetEvaluator) (f : String) : Option Value :=
  match parse f with
  | none => none
  | some ast => (evalAst 1000 ev [] ast []).map Prod.fst

/-- An evaluator over an empty document with no overrides. -/
def emptyEvaluator : SheetEvaluator := ⟨⟨[]⟩, []⟩

/-- The `<letters><digits>` reference shape, written from the spec's words
(§4.1): one or more letters followed by one or more digits. -/
def specRefShape (s : String) : Prop :=
  ∃ l d : List Char, s.data = l ++ d ∧ l ≠ [] ∧ d ≠ [] ∧
    (∀ c ∈ l, c.isUpper = true) ∧ (∀ c ∈ d, c.isDigit = true)

/-- Shape of the number tokens the tokenizer actually emits: characters drawn
from digits and decimal points, led by a digit or by a point immediately
followed by a digit (possibly with several points overall). -/
def numTokShape (s : String) : Prop :=
  (∀ c ∈ s.data, c.isDigit = true ∨ c = '.') ∧
  s.data ≠ [] ∧
  ((s.data.headD ' ').isDigit = true ∨
    ((s.data.headD ' ') = '.' ∧ ((s.data.drop 1).headD ' ').isDigit = true))

/-- Document of the C1 counterexample: `A1` stores raw value `1` and the
formula `2+3`. -/
def c1Doc : SheetModel := ⟨[("A1", ⟨.num (.fin 1), some "2+3"⟩)]⟩

/-- Evaluator of the C1 counterexample: the override maps `A1` to `99`. -/
def c1Eval : SheetEvaluator := mkEvaluator c1Doc [("A1", .num (.fin 99))]

/-- Evaluator of the C1 witness: no document cell, override `a1 ↦ "7"`. -/
def c1WitnessEval : SheetEvaluator := mkEvaluator ⟨[]⟩ [("a1", .str "7")]

/-- Evaluator of the C2 witness: `A1` holds the self-referential formula
`A1`. -/
def c2Eval : SheetEvaluator := mkEvaluator ⟨[("A1", ⟨.null, some "A1"⟩)]⟩ []

theorem char_toNat_ofNat_of_lt {n : ℕ} (h : n < 55296) : (Char.ofNat n).toNat = n := by
  have hv : n.isValidChar := Or.inl h
  simp [Char.ofNat, hv, Char.ofNatAux, Char.toNat, UInt32.toNat]

theorem toUpper_toUpper (c : Char) : c.toUpper.toUpper = c.toUpper := by
  unfold Char.toUpper
  by_cases h : c.toNat ≥ 97 ∧ c.toNat ≤ 122
  · rw [if_pos h]
    have hn : (Char.ofNat (c.toNat - 32)).toNat = c.toNat - 32 :=
      char_toNat_ofNat_of_lt (by omega)
    rw [if_neg]
    omega
  · rw [if_neg h, if_neg h]

theorem toUpper_ne_dollar {c : Char} (h : c ≠ '$') : c.toUpper ≠ '$' := by
  unfold Char.toUpper
  by_cases hr : c.toNat ≥ 97 ∧ c.toNat ≤ 122
  · rw [if_pos hr]
    intro he
    have := congrArg Char.toNat he
    rw [char_toNat_ofNat_of_lt (by omega)] at this
    have hd : ('$').toNat = 36 := by decide
    omega
  · rw [if_neg hr]
    exact h

theorem normCh_idem (l : List Char) : normCh (normCh l) = normCh l := by
  induction l with
  | nil => rfl
  | cons c l ih =>
    by_cases hc : c = '$'
    · simp [normCh, List.filter, hc] at ih ⊢
      exact ih
    · have h1 : normCh (c :: l) = c.toUpper :: normCh l := by
        simp [normCh, List.filter, hc]
      have h2 : normCh (c.toUpper :: normCh l) = c.toUpper.toUpper :: normCh (normCh l) := by
        simp [normCh, List.filter, toUpper_ne_dollar hc]
      rw [h1, h2, toUpper_toUpper, ih]

theorem normalizeRef_idem (s : String) : normalizeRef (normalizeRef s) = normalizeRef s := by
  show String.mk (normCh (String.mk (normCh s.data)).data) = String.mk (normCh s.data)
  rw [show (String.mk (normCh s.data)).data = normCh s.data from rfl, normCh_idem]

theorem rndNE_bounds (x y : ℕ) (hy : 0 < y) :
    2 * x ≤ 2 * (y * rndNearestEven x y) + y ∧
    2 * (y * rndNearestEven x y) ≤ 2 * x + y := by
  have hd : y * (x / y) + x % y = x := Nat.div_add_mod x y
  have hr : x % y < y := Nat.mod_lt _ hy
  have hmul : y * (x / y + 1) = y * (x / y) + y := by ring
  unfold rndNearestEven
  dsimp only
  split
  · rename_i h
    generalize y * (x / y) = A at hd ⊢
    omega
  · split
    · rename_i h1 h2
      rw [hmul]
      generalize y * (x / y) = A at hd ⊢
      omega
    · split
      · rename_i h1 h2 h3
        generalize y * (x / y) = A at hd ⊢
        omega
      · rename_i h1 h2 h3
        rw [hmul]
        generalize y * (x / y) = A at hd ⊢
        omega

theorem bits_le (fuel n k : ℕ) (h : n < 2 ^ k) : bits fuel n ≤ k := by
  induction fuel generalizing n k with
  | zero => simp [bits]
  | succ fuel ih =>
    unfold bits
    split
    · omega
    · rename_i hn
      have hk : k ≠ 0 := by
        intro hk0
        subst hk0
        simp at h
        exact hn h
      have hpow : 2 ^ k = 2 * 2 ^ (k - 1) := by
        rw [← pow_succ']
        congr 1
        omega
      have hhalf : n / 2 < 2 ^ (k - 1) := by omega
      have := ih (n / 2) (k - 1) hhalf
      omega

theorem rnd_eq_of_le (x : ℕ) (h : x ≤ 2 ^ 53) : rnd x = x := by
  rcases Nat.eq_or_lt_of_le h with heq | hlt
  · subst heq
    rfl
  · have hb : bitLen x ≤ 53 := bits_le 1100 x 53 hlt
    simp [rnd, hb]

theorem jsFloorDiv26_eq_of_le (a : ℕ) (h : a ≤ 2 ^ 53) : jsFloorDiv26 a = a / 26 := by
  unfold jsFloorDiv26
  split
  · rename_i hlt
    exact (Nat.div_eq_of_lt hlt).symm
  · rename_i hge
    have hq : a / 26 < 2 ^ 49 := by
      rw [Nat.div_lt_iff_lt_mul (by norm_num : 0 < 26)]
      calc a ≤ 2 ^ 53 := h
        _ < 2 ^ 49 * 26 := by norm_num
    have hb49 : bitLen (a / 26) ≤ 49 := bits_le 1100 _ 49 hq
    have hb : bitLen (a / 26) ≤ 53 := by omega
    simp only [hb, if_true]
    set k := 53 - bitLen (a / 26) with hkdef
    have hk : 4 ≤ k := by omega
    have h16 : 16 ≤ 2 ^ k := by
      calc (16 : ℕ) = 2 ^ 4 := by norm_num
        _ ≤ 2 ^ k := Nat.pow_le_pow_right (by norm_num) hk
    obtain ⟨hlo, hhi⟩ := rndNE_bounds (a * 2 ^ k) 26 (by norm_num)
    set m := rndNearestEven (a * 2 ^ k) 26 with hmdef
    have hdm : 26 * (a / 26) + a % 26 = a := Nat.div_add_mod a 26
    have hrlt : a % 26 < 26 := Nat.mod_lt _ (by norm_num)
    -- abbreviate the products so that the final chase is linear
    have hsplit : a * 2 ^ k = 26 * ((a / 26) * 2 ^ k) + (a % 26) * 2 ^ k := by
      calc a * 2 ^ k = (26 * (a / 26) + a % 26) * 2 ^ k := by rw [hdm]
        _ = 26 * ((a / 26) * 2 ^ k) + (a % 26) * 2 ^ k := by ring
    have hrp : (a % 26) * 2 ^ k ≤ 25 * 2 ^ k :=
      Nat.mul_le_mul_right _ (by omega)
    have hlow : (a / 26) * 2 ^ k ≤ m := by
      rw [hsplit] at hlo
      generalize hA : (a / 26) * 2 ^ k = A at hlo ⊢
      generalize hB : (a % 26) * 2 ^ k = B at hlo
      omega
    have hhigh : m < ((a / 26) + 1) * 2 ^ k := by
      rw [hsplit] at hhi
      have hexp : ((a / 26) + 1) * 2 ^ k = (a / 26) * 2 ^ k + 2 ^ k := by ring
      rw [hexp]
      generalize hA : (a / 26) * 2 ^ k = A at hhi ⊢
      generalize hB : (a % 26) * 2 ^ k = B at hhi hrp
      generalize hP : 2 ^ k = P at hhi hrp h16 ⊢
      omega
    have := Nat.div_eq_of_lt_le hlow hhigh
    omega

theorem colToNum_append_char (s : List Char) (c : Char) :
    (s ++ [c]).foldl (fun n ch => rnd (rnd (n * 26) + (ch.toNat - 64))) 0 =
      rnd (rnd ((s.foldl (fun n ch => rnd (rnd (n * 26) + (ch.toNat - 64))) 0) * 26) +
        (c.toNat - 64)) := by
  rw [List.foldl_append]
  rfl

theorem colToNum_numToColGo (fuel : ℕ) :
    ∀ n, n ≤ fuel → n ≤ 2 ^ 53 → colToNum (numToColGo fuel n) = n := by
  induction fuel with
  | zero =>
    intro n hn _
    have : n = 0 := by omega
    subst this
    rfl
  | succ fuel ih =>
    intro n hn hbound
    match n with
    | 0 => rfl
    | m + 1 =>
      have hm53 : m ≤ 2 ^ 53 := by omega
      have hrm : rnd m = m := rnd_eq_of_le m hm53
      have hfd : jsFloorDiv26 m = m / 26 := jsFloorDiv26_eq_of_le m hm53
      have h1 : m / 26 ≤ fuel := le_trans (Nat.div_le_self _ _) (by omega)
      have h2 : m / 26 ≤ 2 ^ 53 := le_trans (Nat.div_le_self _ _) hm53
      have ihm := ih (m / 26) h1 h2
      show colToNum
        (numToColGo fuel (jsFloorDiv26 (rnd m)) ++
          String.singleton (Char.ofNat (65 + (rnd m) % 26))) = m + 1
      rw [hrm, hfd]
      unfold colToNum at ihm ⊢
      rw [String.data_append]
      have hd : (String.singleton (Char.ofNat (65 + m % 26))).data =
          [Char.ofNat (65 + m % 26)] := rfl
      rw [hd, colToNum_append_char, ihm]
      have hc : (Char.ofNat (65 + m % 26)).toNat = 65 + m % 26 :=
        char_toNat_ofNat_of_lt (by omega)
      rw [hc]
      have hprod : (m / 26) * 26 ≤ 2 ^ 53 :=
        le_trans (Nat.div_mul_le_self m 26) hm53
      rw [rnd_eq_of_le _ hprod]
      have hdm : 26 * (m / 26) + m % 26 = m := Nat.div_add_mod m 26
      have hmod : m % 26 < 26 := Nat.mod_lt _ (by norm_num)
      have hsum : (m / 26) * 26 + (65 + m % 26 - 64) = m + 1 := by omega
      rw [hsum, rnd_eq_of_le _ hbound]

set_option maxRecDepth 20000 in
/-- C4 (counterexample): at the representable double input `2 ^ 53 + 2` the
program's round trip returns `2 ^ 53`, not the input — the decrement and the
final decode step each round to 53 bits (ties to even) — so the claim's
unrestricted "for every positive integer n" fails on the code. -/
theorem columnCodec_roundTrip_cex :
    0 < 9007199254740994 ∧
    colToNum (numToCol 9007199254740994) = 9007199254740992 ∧
    colToNum (numToCol 9007199254740994) ≠ 9007199254740994 := by
  have h : colToNum (numToCol 9007199254740994) = 9007199254740992 := by decide
  refine ⟨by decide, h, ?_⟩
  rw [h]
  decide

/-- C4 (amended): for every positive integer `n` up to `2 ^ 53` — the range
on which the source's double arithmetic is exact — decoding the column
letters produced for `n` yields `n` back: `colToNum (numToCol n) = n` under
the 1-based no-zero-digit base-26 column numbering. -/
theorem columnCodec_roundTrip (n : ℕ) (_h : 0 < n) (h53 : n ≤ 2 ^ 53) :
    colToNum (numToCol n) = n :=
  colToNum_numToColGo n n le_rfl h53

/-- Witness for C4 at the concrete index 703 (`AAA`). -/
theorem columnCodec_roundTrip_witness :
    0 < 703 ∧ 703 ≤ 2 ^ 53 ∧ colToNum (numToCol 703) = 703 :=
  ⟨by decide, by decide, columnCodec_roundTrip 703 (by decide) (by decide)⟩

/-- C9: numeric coercion sends both booleans to 0 — `TRUE` is never coerced
to 1 — so arithmetic and ordering operators treat a boolean operand as 0;
`(1=1) + 1` and `TRUE + 1` both evaluate to 1. -/
theorem boolCoercion_zero :
    (∀ b, toNumber (.bool b) = .fin 0) ∧
    (∀ b v, applyBin "+" (.bool b) v = .num (jadd (.fin 0) (toNumber v))) ∧
    (∀ b v, applyBin "<" (.bool b) v = .bool (jlt (.fin 0) (toNumber v))) ∧
    evalFormula emptyEvaluator "(1=1) + 1" = some (.num (.fin 1)) ∧
    evalFormula emptyEvaluator "TRUE + 1" = some (.num (.fin 1)) := by
  refine ⟨fun b => rfl, fun b v => rfl, fun b v => rfl, ?_, ?_⟩ <;> rfl

/-- C3: `=` and `<>` compare the text coercions of their operands while
`<`, `>`, `<=`, `>=` compare the numeric coercions; in particular
`"5" = "5.0"` is `false` while `5 = 5.0` is `true`. -/
theorem cmp_coercion_asymmetry :
    (∀ fuel ev cache stack l r lv rv c1 c2,
      evalAst fuel ev cache l stack = some (lv, c1) →
      evalAst fuel ev c1 r stack = some (rv, c2) →
      evalAst (fuel + 1) ev cache (.bin "=" l r) stack =
        some (.bool (toText lv == toText rv), c2) ∧
      evalAst (fuel + 1) ev cache (.bin "<>" l r) stack =
        some (.bool (!(toText lv == toText rv)), c2) ∧
      evalAst (fuel + 1) ev cache (.bin "<" l r) stack =
        some (.bool (jlt (toNumber lv) (toNumber rv)), c2) ∧
      evalAst (fuel + 1) ev cache (.bin ">" l r) stack =
        some (.bool (jlt (toNumber rv) (toNumber lv)), c2) ∧
      evalAst (fuel + 1) ev cache (.bin "<=" l r) stack =
        some (.bool (jle (toNumber lv) (toNumber rv)), c2) ∧
      evalAst (fuel + 1) ev cache (.bin ">=" l r) stack =
        some (.bool (jle (toNumber rv) (toNumber lv)), c2)) ∧
    evalFormula emptyEvaluator "\"5\" = \"5.0\"" = some (.bool false) ∧
    evalFormula emptyEvaluator "5 = 5.0" = some (.bool true) := by
  refine ⟨?_, by rfl, by rfl⟩
  intro fuel ev cache stack l r lv rv c1 c2 h1 h2
  refine ⟨?_, ?_, ?_, ?_, ?_, ?_⟩ <;> simp [evalAst, h1, h2, applyBin]

/-- Witness for C3's conditional part: the operator equations applied to the
literal operands `5` and `7`. -/
theorem cmp_coercion_asymmetry_witness :
    evalAst 2 emptyEvaluator [] (.bin "=" (.num (.fin 5)) (.num (.fin 7))) [] =
      some (.bool (toText (.num (.fin 5)) == toText (.num (.fin 7))), []) ∧
    evalAst 2 emptyEvaluator [] (.bin "<" (.num (.fin 5)) (.num (.fin 7))) [] =
      some (.bool (jlt (toNumber (.num (.fin 5))) (toNumber (.num (.fin 7)))), []) :=
  ⟨(cmp_coercion_asymmetry.1 1 emptyEvaluator [] [] (.num (.fin 5)) (.num (.fin 7))
      (.num (.fin 5)) (.num (.fin 7)) [] [] rfl rfl).1,
   (cmp_coercion_asymmetry.1 1 emptyEvaluator [] [] (.num (.fin 5)) (.num (.fin 7))
      (.num (.fin 5)) (.num (.fin 7)) [] [] rfl rfl).2.2.1⟩

theorem evalAst_IF_two_args (fuel : ℕ) (ev : SheetEvaluator) (cache : Cache)
    (c t : Ast) (stack : List String) :
    evalAst (fuel + 1) ev cache (.call "IF" [c, t]) stack =
      match evalAst fuel ev cache c stack with
      | none => none
      | some (cv, c1) =>
          if truthyExcel cv then evalAst fuel ev c1 t stack
          else evalAst fuel ev c1 (.str "") stack := rfl

/-- C6: `IF` evaluates its condition, tests it with the truthy coercion, and
then evaluates exactly one branch — the result (value and cache) is that of
the taken branch alone, for any untaken branch expression; a falsy condition
with no else-branch yields empty text. -/
theorem if_short_circuit :
    (∀ fuel ev cache stack c t e cv c1,
      evalAst fuel ev cache c stack = some (cv, c1) →
      (truthyExcel cv = true →
        evalAst (fuel + 1) ev cache (.call "IF" [c, t, e]) stack =
          evalAst fuel ev c1 t stack) ∧
      (truthyExcel cv = false →
        evalAst (fuel + 1) ev cache (.call "IF" [c, t, e]) stack =
          evalAst fuel ev c1 e stack) ∧
      (truthyExcel cv = false →
        evalAst (fuel + 1) ev cache (.call "IF" [c, t]) stack =
          some (.str "", c1))) ∧
    evalFormula emptyEvaluator "IF(1>0, \"yes\", \"no\")" = some (.str "yes") ∧
    evalFormula emptyEvaluator "IF(0, \"yes\", \"no\")" = some (.str "no") ∧
    evalFormula emptyEvaluator "IF(0,\"yes\")" = some (.str "") := by
  refine ⟨?_, by rfl, by rfl, by rfl⟩
  intro fuel ev cache stack c t e cv c1 h1
  refine ⟨fun ht => ?_, fun hf => ?_, fun hf => ?_⟩
  · simp [evalAst, h1, ht]
  · simp [evalAst, h1, hf]
  · cases fuel with
    | zero => simp [evalAst] at h1
    | succ k =>
      rw [evalAst_IF_two_args, h1]
      simp [hf, evalAst]

/-- C1 (counterexample): `A1` stores the formula `2+3` and the override maps
`A1` to `99`, yet a fresh-session `evalCell` evaluates the formula and
returns `5`, not the override's raw value. -/
theorem override_beats_formula_cex :
    jget c1Eval.overrides (normalizeRef "A1") = some (.num (.fin 99)) ∧
    getCellFormula c1Eval (normalizeRef "A1") = some "2+3" ∧
    (evalCell 9 c1Eval [] "A1" []).map Prod.fst = some (.num (.fin 5)) ∧
    Value.num (.fin 5) ≠ Value.num (.fin 99) := by
  refine ⟨rfl, rfl, rfl, ?_⟩
  intro h
  injection h with h1
  injection h1 with h2
  exact absurd (congrArg JsRat.num h2) (by decide)

/-- C1 (amended): for a cell whose normalized reference has an override entry
and for which the Document stores no formula, a fresh-session `evalCell`
returns the override's raw value (number-like text converted to a number,
null to empty text) without evaluating any formula, and caches it; when the
Document does store a formula for the cell, that formula wins instead. -/
theorem override_raw_when_no_formula (ev : SheetEvaluator) (ref : String) (v : Value)
    (fuel : ℕ) (h1 : jget ev.overrides (normalizeRef ref) = some v)
    (h2 : getCellFormula ev (normalizeRef ref) = none) :
    evalCell (fuel + 1) ev [] ref [] =
      some (rawOut v, [(normalizeRef ref, rawOut v)]) := by
  simp only [evalCell, cacheGet, List.find?, Option.map_none, List.contains_nil,
    Bool.false_eq_true, if_false, h2]
  simp [getCellRaw, normalizeRef_idem, h1]

/-- Witness for C1's amended theorem: an override `a1 ↦ "7"` on an empty
document makes `evalCell "A1"` return the number 7. -/
theorem override_raw_when_no_formula_witness :
    evalCell 5 c1WitnessEval [] "A1" [] =
      some (rawOut (.str "7"), [(normalizeRef "A1", rawOut (.str "7"))]) :=
  override_raw_when_no_formula c1WitnessEval "A1" (.str "7") 4 rfl rfl

/-- C2: an uncached re-entrant `evalCell` call short-circuits with empty
text whenever the normalized reference is already on the visitation stack;
consequently a fresh-session evaluation of a cell whose stored formula is
exactly a reference to that same cell terminates with the empty-text value
(and caches it), raising no error. -/
theorem self_cycle_empty :
    (∀ (fuel : ℕ) (ev : SheetEvaluator) (cache : Cache) (ref : String)
      (stack : List String),
      cacheGet cache (normalizeRef ref) = none →
      stack.contains (normalizeRef ref) = true →
      evalCell (fuel + 1) ev cache ref stack = some (.str "", cache)) ∧
    (∀ (ev : SheetEvaluator) (ref f r : String) (fuel : ℕ),
      getCellFormula ev (normalizeRef ref) = some f → ¬ f = "" →
      parse f = some (.cell r) → normalizeRef r = normalizeRef ref →
      evalCell (fuel + 3) ev [] ref [] =
        some (.str "", [(normalizeRef ref, .str "")])) := by
  constructor
  · intro fuel ev cache ref stack h1 h2
    simp only [evalCell, h1, h2, if_true]
  · intro ev ref f r fuel hf hne hp hr
    simp only [evalCell, cacheGet, List.find?, Option.map_none, List.contains_nil,
      Bool.false_eq_true, if_false, hf, hne, if_neg, hp]
    simp only [List.nil_append, evalAst, evalCell, cacheGet, List.find?, Option.map_none, hr]
    simp [List.contains_cons]

/-- Witness for C2: the document whose `A1` stores the formula `A1`. -/
theorem self_cycle_empty_witness :
    evalCell 3 c2Eval [] "A1" [] = some (.str "", [(normalizeRef "A1", .str "")]) :=
  self_cycle_empty.2 c2Eval "A1" "A1" "A1" 0 rfl (by decide) rfl rfl

/-- C10: a fresh-session `evalCell` on a reference whose normalized form is
absent from both the override map and the document returns empty text (the
missing lookup yields a blank, not an error) and caches that blank. -/
theorem absent_cell_blank (ev : SheetEvaluator) (ref : String) (fuel : ℕ)
    (h1 : jget ev.overrides (normalizeRef ref) = none)
    (h2 : jget ev.sheetModel.cells (normalizeRef ref) = none) :
    evalCell (fuel + 1) ev [] ref [] =
      some (.str "", [(normalizeRef ref, .str "")]) := by
  simp only [evalCell, cacheGet, List.find?, Option.map_none, List.contains_nil,
    Bool.false_eq_true, if_false]
  simp [getCellFormula, getCellRaw, rawOut, isNumberLike, normalizeRef_idem, h1, h2]

/-- Witness for C10 at the empty document and the reference `Q7`. -/
theorem absent_cell_blank_witness :
    evalCell 1 emptyEvaluator [] "Q7" [] =
      some (.str "", [(normalizeRef "Q7", .str "")]) :=
  absent_cell_blank emptyEvaluator "Q7" 0 rfl rfl

/-- Witness for C6's conditional part: with a truthy literal condition the
call reduces to the then-branch, with a falsy one to the else-branch. -/
theorem if_short_circuit_witness :
    (evalAst 2 emptyEvaluator [] (.call "IF" [.num (.fin 1), .str "yes", .str "no"]) [] =
      evalAst 1 emptyEvaluator [] (.str "yes") []) ∧
    (evalAst 2 emptyEvaluator [] (.call "IF" [.num (.fin 0), .str "yes", .str "no"]) [] =
      evalAst 1 emptyEvaluator [] (.str "no") []) :=
  ⟨(if_short_circuit.1 1 emptyEvaluator [] [] (.num (.fin 1)) (.str "yes") (.str "no")
      (.num (.fin 1)) [] rfl).1 rfl,
   (if_short_circuit.1 1 emptyEvaluator [] [] (.num (.fin 0)) (.str "yes") (.str "no")
      (.num (.fin 0)) [] rfl).2.1 rfl⟩

theorem splitColon_no_colon (l : List Char) (h : ':' ∉ l) : splitColon l = [l] := by
  induction l with
  | nil => rfl
  | cons c rest ih =>
    have hc : ¬ c = ':' := fun e => h (e ▸ List.mem_cons_self c rest)
    have ih' := ih (fun hm => h (List.mem_cons_of_mem _ hm))
    simp [splitColon, hc, ih']

theorem splitColon_append (a b : List Char) (ha : ':' ∉ a) :
    splitColon (a ++ ':' :: b) = a :: splitColon b := by
  induction a with
  | nil => simp [splitColon]
  | cons c rest ih =>
    have hc : ¬ c = ':' := fun e => ha (e ▸ List.mem_cons_self c rest)
    have ih' := ih (fun hm => ha (List.mem_cons_of_mem _ hm))
    simp [splitColon, hc, ih']

theorem no_colon_of_splitRef_isSome {s : String} (h : (splitRef s).isSome) :
    ':' ∉ s.data := by
  intro hm
  unfold splitRef at h
  dsimp only at h
  split at h
  · rename_i hcond
    obtain ⟨-, -, h3⟩ := hcond
    rw [← List.takeWhile_append_dropWhile (p := Char.isUpper) (l := s.data)] at hm
    rcases List.mem_append.mp hm with hA | hB
    · exact absurd (List.mem_takeWhile_imp hA) (by decide)
    · exact absurd ((List.all_eq_true.mp h3) _ hB) (by decide)
  · simp at h

theorem colon_mem_normCh {l : List Char} (h : ':' ∈ l) : ':' ∈ normCh l := by
  unfold normCh
  refine List.mem_map.mpr ⟨':', ?_, by decide⟩
  exact List.mem_filter.mpr ⟨h, by decide⟩

/-- C5: range expansion is corner-order independent — both corner orders
yield the same row-major bounding-box enumeration; in particular `A1:C3`
and `C3:A1` both expand to the nine references
`A1,B1,C1,A2,B2,C2,A3,B3,C3` in that order. -/
theorem expandRange_corner_comm :
    (∀ a b : String,
      (splitRef (normalizeRef a)).isSome → (splitRef (normalizeRef b)).isSome →
      expandRange (a ++ ":" ++ b) = expandRange (b ++ ":" ++ a)) ∧
    expandRange "A1:C3" =
      some ["A1", "B1", "C1", "A2", "B2", "C2", "A3", "B3", "C3"] ∧
    expandRange "C3:A1" =
      some ["A1", "B1", "C1", "A2", "B2", "C2", "A3", "B3", "C3"] := by
  refine ⟨?_, by rfl, by rfl⟩
  intro a b ha hb
  obtain ⟨ra, hra⟩ := Option.isSome_iff_exists.mp ha
  obtain ⟨rb, hrb⟩ := Option.isSome_iff_exists.mp hb
  have hca : ':' ∉ a.data := fun hm => no_colon_of_splitRef_isSome ha (colon_mem_normCh hm)
  have hcb : ':' ∉ b.data := fun hm => no_colon_of_splitRef_isSome hb (colon_mem_normCh hm)
  have key : ∀ x y : String, ':' ∉ x.data → ':' ∉ y.data →
      splitColon (x ++ ":" ++ y).data = [x.data, y.data] := by
    intro x y hx hy
    have hd : (x ++ ":" ++ y).data = x.data ++ ':' :: y.data := by
      simp [String.data_append]
    rw [hd, splitColon_append _ _ hx, splitColon_no_colon _ hy]
  unfold expandRange
  rw [key a b hca hcb, key b a hcb hca]
  simp only [List.map]
  rw [show String.mk a.data = a from rfl, show String.mk b.data = b from rfl, hra, hrb]
  simp [Nat.min_comm, Nat.max_comm]

/-- Witness for C5's conditional part at the corners `A1` and `C3`. -/
theorem expandRange_corner_comm_witness :
    expandRange ("A1" ++ ":" ++ "C3") = expandRange ("C3" ++ ":" ++ "A1") :=
  expandRange_corner_comm.1 "A1" "C3" (by decide) (by decide)

theorem cons_of_map_eq {tok : Token} {o : Option (List Token)} {ts : List Token}
    (h : o.map (tok :: ·) = some ts) : ∃ ts', o = some ts' ∧ ts = tok :: ts' := by
  cases o with
  | none => simp at h
  | some l => exact ⟨l, rfl, by simpa using h.symm⟩

theorem numStart_cases {c : Char} {rest : List Char} (h : numStart c rest = true) :
    c.isDigit = true ∨ (c = '.' ∧ ∃ d tl, rest = d :: tl ∧ d.isDigit = true) := by
  unfold numStart at h
  rcases (Bool.or_eq_true _ _).mp h with h1 | h1
  · exact Or.inl h1
  · obtain ⟨hdot, hm⟩ := (Bool.and_eq_true _ _).mp h1
    refine Or.inr ⟨by simpa using hdot, ?_⟩
    match rest, hm with
    | d :: tl, hm => exact ⟨d, tl, rfl, by simpa using hm⟩
    | [], hm => simp at hm

theorem tokenizeGo_number_shape (fuel : ℕ) :
    ∀ cs ts, tokenizeGo fuel cs = some ts →
      ∀ t ∈ ts, t.kind = TokKind.number → numTokShape t.value := by
  induction fuel with
  | zero => intro cs ts h; simp [tokenizeGo] at h
  | succ fuel ih =>
    intro cs ts h t ht hk
    match cs with
    | [] =>
      simp [tokenizeGo] at h
      subst h
      simp at ht
    | c :: rest =>
      unfold tokenizeGo at h
      split at h
      · exact ih _ _ h t ht hk
      · split at h
        · obtain ⟨ts', hgo, rfl⟩ := cons_of_map_eq h
          rcases List.mem_cons.mp ht with rfl | hmem
          · exact absurd hk (by simp)
          · exact ih _ _ hgo t hmem hk
        · split at h
          · obtain ⟨ts', hgo, rfl⟩ := cons_of_map_eq h
            rcases List.mem_cons.mp ht with rfl | hmem
            · exact absurd hk (by simp)
            · exact ih _ _ hgo t hmem hk
          · split at h
            · obtain ⟨ts', hgo, rfl⟩ := cons_of_map_eq h
              rcases List.mem_cons.mp ht with rfl | hmem
              · exact absurd hk (by simp)
              · exact ih _ _ hgo t hmem hk
            · split at h
              · rename_i hcond
                obtain ⟨ts', hgo, rfl⟩ := cons_of_map_eq h
                rcases List.mem_cons.mp ht with rfl | hmem
                · refine ⟨?_, by simp, ?_⟩
                  · intro x hx
                    rcases List.mem_cons.mp hx with rfl | hx'
                    · rcases numStart_cases hcond with hd | ⟨hd, -⟩
                      · exact Or.inl hd
                      · exact Or.inr hd
                    · have hdd := List.mem_takeWhile_imp hx'
                      unfold isDigitDot at hdd
                      rcases (Bool.or_eq_true _ _).mp hdd with hxx | hxx
                      · exact Or.inl hxx
                      · exact Or.inr (by simpa using hxx)
                  · rcases numStart_cases hcond with hd | ⟨hdot, d, tl, hrest, hdig⟩
                    · exact Or.inl (by simpa using hd)
                    · right
                      subst hrest
                      refine ⟨by simpa using hdot, ?_⟩
                      have hdd : isDigitDot d = true := by
                        unfold isDigitDot
                        simp [hdig]
                      simp [List.takeWhile, hdd, hdig]
                · exact ih _ _ hgo t hmem hk
              · split at h
                · obtain ⟨ts', hgo, rfl⟩ := cons_of_map_eq h
                  rcases List.mem_cons.mp ht with rfl | hmem
                  · exact absurd hk (by simp)
                  · exact ih _ _ hgo t hmem hk
                · exact absurd h (by simp)

/-- C7 (counterexample): the input `1.2.3` is tokenized as a single number
token whose text contains two decimal points. -/
theorem number_token_two_dots_cex :
    tokenize "1.2.3" = some [⟨TokKind.number, "1.2.3"⟩] ∧
    2 ≤ ("1.2.3" : String).data.count '.' :=
  ⟨rfl, by decide⟩

/-- C7 (amended): every number token the tokenizer emits is a nonempty run
of digits and decimal points — possibly with more than one point — whose
first character is a digit, or a point immediately followed by a digit; in
particular a leading point starts a number token only when a digit follows. -/
theorem number_token_shape (s : String) (ts : List Token) (h : tokenize s = some ts) :
    ∀ t ∈ ts, t.kind = TokKind.number → numTokShape t.value :=
  tokenizeGo_number_shape _ _ _ h

/-- Witness for C7's amended theorem at `.5`, a number token led by a point. -/
theorem number_token_shape_witness : numTokShape (Token.mk TokKind.number ".5").value :=
  number_token_shape ".5" [⟨TokKind.number, ".5"⟩] rfl ⟨TokKind.number, ".5"⟩
    (by simp) rfl

theorem shape_of_splitRef_isSome {s : String} (h : (splitRef s).isSome) :
    specRefShape s := by
  unfold splitRef at h
  dsimp only at h
  split at h
  · rename_i hcond
    obtain ⟨h1, h2, h3⟩ := hcond
    refine ⟨s.data.takeWhile Char.isUpper, s.data.dropWhile Char.isUpper,
      (List.takeWhile_append_dropWhile _ _).symm, h1, h2, ?_, ?_⟩
    · exact fun c hc => List.mem_takeWhile_imp hc
    · exact fun c hc => (List.all_eq_true.mp h3) _ hc
  · simp at h

/-- C8: when the anchor-stripped, uppercased form of a reference does not
match the `<letters><digits>` shape, the reference codec fails (the split
of the normalized reference reports the malformed-reference error rather
than silently accepting the string). -/
theorem malformed_normalize_fails (s : String)
    (h : ¬ specRefShape (normalizeRef s)) : splitRef (normalizeRef s) = none := by
  by_contra hne
  exact h (shape_of_splitRef_isSome (Option.ne_none_iff_isSome.mp hne))

/-- Witness for C8 at the empty reference. -/
theorem malformed_normalize_fails_witness : splitRef (normalizeRef "") = none :=
  malformed_normalize_fails "" (by
    rintro ⟨l, d, hd, hl, -, -, -⟩
    have hnil : normCh ("" : String).data = [] := rfl
    rw [show (normalizeRef "").data = normCh ("" : String).data from rfl, hnil] at hd
    exact hl (List.append_eq_nil.mp hd.symm).1)

end Sheet
